import Mathlib

/-!
Verification of the claudecord Discord bot's core control logic, modelled
shallowly from the Python sources: the budget-forced reasoning loop
(`get_scaled_thinking` in main.py), the conversation storage operations
(conversation_mem.py), the two-tier RAG fallback pipeline (rag.py), and the
message-formatting / attachment-resolution step of `get_claude_response`
(main.py). External collaborators (the completion provider, paperqa, the
Mongo driver) are modelled as explicit oracle parameters; machine strings are
Lean `String`s over `List Char`.
-/

/-- ASCII whitespace, the characters Python's default str.strip family
removes (unicode whitespace beyond ASCII is not modelled; no string in the
program's fixed vocabulary contains such characters). -/
def pyIsSpace (c : Char) : Bool :=
  c == ' ' || c == '\t' || c == '\n' || c == '\r' || c == '\x0B' || c == '\x0C'

/-- Trailing-whitespace removal on a character list. -/
def rstripList (l : List Char) : List Char :=
  (l.reverse.dropWhile pyIsSpace).reverse

/-- Leading-whitespace removal on a character list. -/
def lstripList (l : List Char) : List Char :=
  l.dropWhile pyIsSpace

/-- Python `str.rstrip()` with no arguments. -/
def rstrip (s : String) : String := ⟨rstripList s.data⟩

/-- Python `str.strip()` with no arguments. -/
def pyStrip (s : String) : String := ⟨rstripList (lstripList s.data)⟩

/-- Number of positions at which `pat` occurs as a contiguous substring of
the given character list (the pattern in use cannot overlap itself). -/
def countOcc (pat : List Char) : List Char → Nat
  | [] => 0
  | c :: rest => cond (pat.isPrefixOf (c :: rest)) 1 0 + countOcc pat rest

/-- Occurrence count of `pat` as a substring of `s`. -/
def countOccStr (pat s : String) : Nat := countOcc pat.data s.data

/-- Whether `s` begins with the string `p`. -/
def strStartsWith (p s : String) : Bool := p.data.isPrefixOf s.data

theorem strData_append (s t : String) : (s ++ t).data = s.data ++ t.data := by
  cases s; cases t; rfl

theorem isPrefixOf_nil_left (l : List Char) : List.isPrefixOf [] l = true := by
  cases l <;> rfl

theorem isPrefixOf_cons_nil (a : Char) (l : List Char) :
    List.isPrefixOf (a :: l) [] = false := rfl

theorem isPrefixOf_cons_cons (a b : Char) (l₁ l₂ : List Char) :
    List.isPrefixOf (a :: l₁) (b :: l₂) = ((a == b) && List.isPrefixOf l₁ l₂) := rfl

theorem isPrefixOf_iff_exists (l₁ : List Char) :
    ∀ l₂, l₁.isPrefixOf l₂ = true ↔ ∃ t, l₂ = l₁ ++ t := by
  induction l₁ with
  | nil =>
    intro l₂
    simp [isPrefixOf_nil_left]
  | cons a as ih =>
    intro l₂
    cases l₂ with
    | nil =>
      simp [isPrefixOf_cons_nil]
    | cons b bs =>
      rw [isPrefixOf_cons_cons]
      simp only [Bool.and_eq_true, beq_iff_eq, ih bs, List.cons_append, List.cons.injEq]
      constructor
      · rintro ⟨rfl, t, rfl⟩
        exact ⟨t, rfl, rfl⟩
      · rintro ⟨t, rfl, rfl⟩
        exact ⟨rfl, t, rfl⟩

theorem isPrefixOf_append_self (l t : List Char) : l.isPrefixOf (l ++ t) = true :=
  (isPrefixOf_iff_exists l (l ++ t)).mpr ⟨t, rfl⟩

theorem isPrefixOf_append_extend (pat x t : List Char)
    (h : pat.isPrefixOf x = true) : pat.isPrefixOf (x ++ t) = true := by
  rcases (isPrefixOf_iff_exists pat x).mp h with ⟨u, rfl⟩
  rw [List.append_assoc]
  exact isPrefixOf_append_self pat (u ++ t)

theorem countOcc_cons (pat : List Char) (c : Char) (rest : List Char) :
    countOcc pat (c :: rest) =
      cond (pat.isPrefixOf (c :: rest)) 1 0 + countOcc pat rest := rfl

theorem countOcc_append_zero (pat l t : List Char)
    (h : countOcc pat (l ++ t) = 0) : countOcc pat l = 0 := by
  induction l with
  | nil => rfl
  | cons c l ih =>
    rw [List.cons_append, countOcc_cons] at h
    rcases Nat.add_eq_zero.mp h with ⟨h1, h2⟩
    rw [countOcc_cons]
    have hp : pat.isPrefixOf (c :: l) = false := by
      cases hx : pat.isPrefixOf (c :: l) with
      | false => rfl
      | true =>
        have := isPrefixOf_append_extend pat (c :: l) t hx
        rw [List.cons_append] at this
        rw [this] at h1
        simp at h1
    rw [hp]
    simpa using ih h2

theorem countOcc_cons_of_ne (p c : Char) (ps rest : List Char) (h : ¬p = c) :
    countOcc (p :: ps) (c :: rest) = countOcc (p :: ps) rest := by
  rw [countOcc_cons, isPrefixOf_cons_cons]
  have hb : ((p == c) : Bool) = false := by
    simpa using h
  rw [hb]
  simp

theorem isPrefixOf_append_cons_eq (pat : List Char) (c : Char) (hc : ¬c ∈ pat) :
    ∀ a b : List Char, pat.isPrefixOf (a ++ c :: b) = pat.isPrefixOf a := by
  induction pat with
  | nil =>
    intro a b
    rw [isPrefixOf_nil_left, isPrefixOf_nil_left]
  | cons p ps ih =>
    intro a b
    have hpc : ¬p = c := by
      intro h
      exact hc (h ▸ List.mem_cons_self p ps)
    have hps : ¬c ∈ ps := fun h => hc (List.mem_cons_of_mem p h)
    cases a with
    | nil =>
      rw [List.nil_append, isPrefixOf_cons_nil, isPrefixOf_cons_cons]
      have hb : ((p == c) : Bool) = false := by simpa using hpc
      rw [hb, Bool.false_and]
    | cons x a' =>
      rw [List.cons_append, isPrefixOf_cons_cons, isPrefixOf_cons_cons, ih hps a' b]

theorem countOcc_append_cons (pat : List Char) (hp : pat ≠ []) (c : Char)
    (hc : ¬c ∈ pat) (a b : List Char) :
    countOcc pat (a ++ c :: b) = countOcc pat a + countOcc pat b := by
  induction a with
  | nil =>
    rw [List.nil_append, countOcc_cons]
    have hfalse : pat.isPrefixOf (c :: b) = false := by
      have h0 := isPrefixOf_append_cons_eq pat c hc [] b
      rw [List.nil_append] at h0
      rw [h0]
      cases pat with
      | nil => exact absurd rfl hp
      | cons p ps => exact isPrefixOf_cons_nil p ps
    rw [hfalse]
    simp [countOcc]
  | cons x a' ih =>
    rw [List.cons_append, countOcc_cons]
    have heq : pat.isPrefixOf (x :: (a' ++ c :: b)) = pat.isPrefixOf (x :: a') := by
      have := isPrefixOf_append_cons_eq pat c hc (x :: a') b
      rwa [List.cons_append] at this
    rw [heq, ih, countOcc_cons]
    omega

theorem rstripList_splits (l : List Char) :
    l = rstripList l ++ (l.reverse.takeWhile pyIsSpace).reverse := by
  have h : l.reverse.takeWhile pyIsSpace ++ l.reverse.dropWhile pyIsSpace = l.reverse :=
    List.takeWhile_append_dropWhile pyIsSpace l.reverse
  have h2 := congrArg List.reverse h
  rw [List.reverse_append, List.reverse_reverse] at h2
  exact h2.symm

/-! ## Budget-forced reasoning controller (`get_scaled_thinking`, main.py 212-270)

The completion provider is an oracle: `frags i` is the text of the `i`-th
continuation response (the loop's `continuation.content[0].text`) and
`finalText` is the final response's text.  The controller seeds the buffer
with `"<think>Okay"`, appends `"\nWait"` before every round but the first,
right-strips each fragment, appends `"</think>"` after the loop, issues one
final request without a stop boundary, and returns the buffer followed by
the right-stripped final text. -/

/-- The seeded reasoning buffer (`buffer = "<think>Okay"`, main.py 217). -/
def thinkOpen : String := "<think>Okay"

/-- The open reasoning marker of the design. -/
def thinkOpenMarker : String := "<think>"

/-- The close reasoning marker, also the stop sequence of every
continuation request (main.py 240, 247). -/
def thinkClose : String := "</think>"

/-- The continuation sentinel appended before every round but the first
(main.py 224-225). -/
def waitSentinel : String := "\nWait"

/-- The fixed string returned when any provider call raises (main.py 268-270). -/
def scalingError : String := "error in test-time scaling"

/-- `thinkClose` as a character list. -/
def closeL : List Char := ['<', '/', 't', 'h', 'i', 'n', 'k', '>']

theorem closeL_eq : thinkClose.data = closeL := rfl

theorem countOcc_closeL_head_ne (c : Char) (hc : ¬c = '<') (rest : List Char) :
    countOcc closeL (c :: rest) = countOcc closeL rest :=
  countOcc_cons_of_ne '<' c ['/', 't', 'h', 'i', 'n', 'k', '>'] rest (fun h => hc h.symm)

/-- `closeL` has no nonempty proper border: no proper nonempty suffix of it
is also a prefix.  Stated through take/drop; checked by evaluation. -/
theorem closeL_border_free :
    ∀ n, n < 8 → 1 ≤ n → ¬List.drop n closeL = List.take (8 - n) closeL := by decide

/-- An occurrence of `closeL` cannot begin inside a block `a` known not to
start with `closeL` and continue across an adjacent explicit `closeL`:
the pattern is border-free. -/
theorem closeL_no_straddle (a tail : List Char) (ha : a ≠ [])
    (hpre : closeL.isPrefixOf a = false) :
    closeL.isPrefixOf (a ++ closeL ++ tail) = false := by
  cases hx : closeL.isPrefixOf (a ++ closeL ++ tail) with
  | false => rfl
  | true =>
    exfalso
    rcases (isPrefixOf_iff_exists closeL (a ++ closeL ++ tail)).mp hx with ⟨t, ht⟩
    have htake := congrArg (List.take 8) ht
    have hrhs : (closeL ++ t).take 8 = closeL := by
      rw [List.take_append_eq_append_take]
      simp [closeL]
    rcases Nat.lt_or_ge a.length 8 with hlt | hge
    · have h1 : 1 ≤ a.length := List.length_pos.mpr ha
      have hlhs : (a ++ closeL ++ tail).take 8 = a ++ closeL.take (8 - a.length) := by
        rw [List.append_assoc, List.take_append_eq_append_take,
            List.take_of_length_le (Nat.le_of_lt hlt), List.take_append_eq_append_take]
        have hz : 8 - a.length - closeL.length = 0 := by
          simp only [closeL, List.length_cons]
          omega
        rw [hz]
        simp
      have hkey : a ++ closeL.take (8 - a.length) = closeL := by
        rw [← hlhs, htake, hrhs]
      have hdrop := congrArg (List.drop a.length) hkey
      rw [List.drop_append_eq_append_drop, List.drop_length, Nat.sub_self,
          List.drop_zero, List.nil_append] at hdrop
      exact closeL_border_free a.length hlt h1 hdrop.symm
    · have hlhs : (a ++ closeL ++ tail).take 8 = a.take 8 := by
        rw [List.append_assoc, List.take_append_eq_append_take,
            Nat.sub_eq_zero_of_le hge]
        simp
      have hkey : a.take 8 = closeL := by rw [← hlhs, htake, hrhs]
      have : closeL.isPrefixOf a = true := by
        refine (isPrefixOf_iff_exists closeL a).mpr ⟨a.drop 8, ?_⟩
        rw [← hkey, List.take_append_drop]
      rw [this] at hpre
      exact Bool.true_eq_false.mp hpre

/-- Exact-occurrence count of the close marker in `pre ++ closeL ++ fin`
when neither `pre` nor `fin` contains an occurrence. -/
theorem countOcc_sandwich (fin : List Char) (hfin : countOcc closeL fin = 0) :
    ∀ pre, countOcc closeL pre = 0 → countOcc closeL (pre ++ closeL ++ fin) = 1 := by
  intro pre
  induction pre with
  | nil =>
    intro _
    rw [List.nil_append]
    show countOcc closeL ('<' :: (['/', 't', 'h', 'i', 'n', 'k', '>'] ++ fin)) = 1
    rw [countOcc_cons]
    have h1 : closeL.isPrefixOf ('<' :: (['/', 't', 'h', 'i', 'n', 'k', '>'] ++ fin)) = true :=
      isPrefixOf_append_self closeL fin
    rw [h1]
    have h2 : countOcc closeL (['/', 't', 'h', 'i', 'n', 'k', '>'] ++ fin) = 0 := by
      rw [List.cons_append, countOcc_closeL_head_ne '/' (by decide),
          List.cons_append, countOcc_closeL_head_ne 't' (by decide),
          List.cons_append, countOcc_closeL_head_ne 'h' (by decide),
          List.cons_append, countOcc_closeL_head_ne 'i' (by decide),
          List.cons_append, countOcc_closeL_head_ne 'n' (by decide),
          List.cons_append, countOcc_closeL_head_ne 'k' (by decide),
          List.cons_append, countOcc_closeL_head_ne '>' (by decide),
          List.nil_append]
      exact hfin
    rw [h2]
    rfl
  | cons c pre' ih =>
    intro hpre
    rw [countOcc_cons] at hpre
    have hfalse : closeL.isPrefixOf (c :: pre') = false := by
      cases hx : closeL.isPrefixOf (c :: pre') with
      | false => rfl
      | true => rw [hx] at hpre; simp at hpre
    rw [hfalse] at hpre
    simp only [cond_false, Nat.zero_add] at hpre
    have hstr : closeL.isPrefixOf (c :: (pre' ++ closeL ++ fin)) = false :=
      closeL_no_straddle (c :: pre') fin (List.cons_ne_nil c pre') hfalse
    show countOcc closeL (c :: (pre' ++ closeL ++ fin)) = 1
    rw [countOcc_cons, hstr]
    simp only [cond_false, Nat.zero_add]
    exact ih hpre

/-- Reasoning buffer after the first `n` loop iterations of
`get_scaled_thinking` (main.py 217-244): seeded with `thinkOpen`; every
iteration but the first first appends `waitSentinel`, then each iteration
appends the right-stripped continuation fragment. -/
def scaledRounds (frags : Nat → String) : Nat → String
  | 0 => thinkOpen
  | n + 1 =>
      (if n = 0 then scaledRounds frags n else scaledRounds frags n ++ waitSentinel) ++
        rstrip (frags n)

/-- The closed reasoning buffer (`buffer += "</think>"`, main.py 247). -/
def scaledBuffer (frags : Nat → String) (R : Nat) : String :=
  scaledRounds frags R ++ thinkClose

/-- One completion request issued by the controller: its stop boundary
(`stop_sequences`) and the trailing assistant content (the buffer at call
time) appended to the caller's messages. -/
structure ApiCall where
  stop : Option String
  trailing : String
deriving DecidableEq

/-- The sequence of completion requests issued by `get_scaled_thinking` with
`rounds = R`: `R` continuation requests stopped at the close marker
(main.py 234-241), then one final request without a stop boundary
(main.py 256-262). -/
def scaledCalls (frags : Nat → String) (R : Nat) : List ApiCall :=
  (List.range R).map (fun i =>
    ⟨some thinkClose,
     if i = 0 then scaledRounds frags i else scaledRounds frags i ++ waitSentinel⟩)
  ++ [⟨none, scaledBuffer frags R⟩]

/-- The string returned by `get_scaled_thinking` on the non-raising path
(`return buffer + final_msg.content[0].text.rstrip()`, main.py 266). -/
def get_scaled_thinking (frags : Nat → String) (finalText : String) (R : Nat) : String :=
  scaledBuffer frags R ++ rstrip finalText

theorem countOcc_rstrip_zero (s : String) (h : countOcc closeL s.data = 0) :
    countOcc closeL (rstrip s).data = 0 := by
  have hsplit := rstripList_splits s.data
  rw [hsplit] at h
  exact countOcc_append_zero closeL (rstripList s.data) _ h

theorem countOcc_scaledRounds (frags : Nat → String) :
    ∀ R, (∀ i, i < R → countOcc closeL (frags i).data = 0) →
      countOcc closeL (scaledRounds frags R).data = 0 := by
  intro R
  induction R with
  | zero =>
    intro _
    show countOcc closeL thinkOpen.data = 0
    decide
  | succ n ih =>
    intro h
    have hfrag : countOcc closeL (rstrip (frags n)).data = 0 :=
      countOcc_rstrip_zero (frags n) (h n (Nat.lt_succ_self n))
    by_cases hn : n = 0
    · subst hn
      show countOcc closeL ((thinkOpen ++ rstrip (frags 0)).data) = 0
      rw [strData_append]
      show countOcc closeL
        (['<', 't', 'h', 'i', 'n', 'k', '>', 'O', 'k', 'a'] ++ 'y' :: (rstrip (frags 0)).data) = 0
      rw [countOcc_append_cons closeL (by decide) 'y' (by decide)]
      have h0 : countOcc closeL ['<', 't', 'h', 'i', 'n', 'k', '>', 'O', 'k', 'a'] = 0 := by
        decide
      rw [h0, hfrag]
    · have hne : ¬n = 0 := hn
      show countOcc closeL
        (((if n = 0 then scaledRounds frags n else scaledRounds frags n ++ waitSentinel) ++
          rstrip (frags n)).data) = 0
      rw [if_neg hne, strData_append, strData_append]
      have hform : (scaledRounds frags n).data ++ waitSentinel.data ++ (rstrip (frags n)).data =
          (scaledRounds frags n).data ++ '\n' :: (['W', 'a', 'i', 't'] ++ (rstrip (frags n)).data) := by
        rw [List.append_assoc]
        rfl
      rw [hform, countOcc_append_cons closeL (by decide) '\n' (by decide)]
      have hx : countOcc closeL (['W', 'a', 'i', 't'] ++ (rstrip (frags n)).data) = 0 := by
        rw [List.cons_append, countOcc_closeL_head_ne 'W' (by decide),
            List.cons_append, countOcc_closeL_head_ne 'a' (by decide),
            List.cons_append, countOcc_closeL_head_ne 'i' (by decide),
            List.cons_append, countOcc_closeL_head_ne 't' (by decide),
            List.nil_append]
        exact hfrag
      rw [hx, ih (fun i hi => h i (Nat.lt_succ_of_lt hi))]

theorem scaledRounds_opens (frags : Nat → String) :
    ∀ R, ∃ t, (scaledRounds frags R).data = thinkOpenMarker.data ++ t := by
  intro R
  induction R with
  | zero => exact ⟨"Okay".data, rfl⟩
  | succ n ih =>
    rcases ih with ⟨t, ht⟩
    by_cases hn : n = 0
    · subst hn
      refine ⟨t ++ (rstrip (frags 0)).data, ?_⟩
      show ((thinkOpen ++ rstrip (frags 0)).data) = _
      rw [strData_append]
      show (scaledRounds frags 0).data ++ (rstrip (frags 0)).data = _
      rw [ht, List.append_assoc]
    · refine ⟨t ++ waitSentinel.data ++ (rstrip (frags n)).data, ?_⟩
      show (((if n = 0 then scaledRounds frags n else scaledRounds frags n ++ waitSentinel) ++
          rstrip (frags n)).data) = _
      rw [if_neg hn, strData_append, strData_append, ht, List.append_assoc, List.append_assoc,
          List.append_assoc]

/-- Claim C1, counterexample to the claim as stated.  With `rounds = 1`, a
continuation fragment `"A"` that honours the stop boundary (it contains no
close marker), and a final response `"Z</think>"` — which no stop boundary
constrains, since the final request carries none — the returned text
contains two close reasoning markers, not exactly one. -/
theorem c1_counterexample :
    countOccStr thinkClose "A" = 0 ∧
    get_scaled_thinking (fun _ => "A") "Z</think>" 1 = "<think>OkayA</think>Z</think>" ∧
    ¬countOccStr thinkClose (get_scaled_thinking (fun _ => "A") "Z</think>" 1) = 1 := by
  refine ⟨by decide, by decide, by decide⟩

/-- Claim C1 (amended): for every `R ≥ 1` and every provider behaviour,
`get_scaled_thinking` issues exactly `R` continuation requests, each with
the close marker as its stop boundary, plus exactly one final request with
no stop boundary; the returned text begins with the open reasoning marker;
and — provided every continuation fragment contains no close marker (the
stop-boundary contract) and the final response also contains none — the
returned text contains exactly one close reasoning marker. -/
theorem c1_round_counts (frags : Nat → String) (finalText : String) (R : Nat)
    (hR : 1 ≤ R)
    (hfr : ∀ i, i < R → countOccStr thinkClose (frags i) = 0)
    (hfin : countOccStr thinkClose finalText = 0) :
    (scaledCalls frags R).length = R + 1 ∧
    (∀ c, c ∈ (scaledCalls frags R).take R → c.stop = some thinkClose) ∧
    (scaledCalls frags R).drop R = [⟨none, scaledBuffer frags R⟩] ∧
    strStartsWith thinkOpenMarker (get_scaled_thinking frags finalText R) = true ∧
    countOccStr thinkClose (get_scaled_thinking frags finalText R) = 1 := by
  have hlen : ((List.range R).map (fun i =>
      (⟨some thinkClose,
        if i = 0 then scaledRounds frags i
        else scaledRounds frags i ++ waitSentinel⟩ : ApiCall))).length = R := by
    rw [List.length_map, List.length_range]
  refine ⟨?_, ?_, ?_, ?_, ?_⟩
  · rw [scaledCalls, List.length_append, hlen]
    rfl
  · intro c hc
    rw [scaledCalls, List.take_left' hlen] at hc
    rcases List.mem_map.mp hc with ⟨i, _, rfl⟩
    rfl
  · rw [scaledCalls, List.drop_left' hlen]
  · rcases scaledRounds_opens frags R with ⟨t, ht⟩
    show thinkOpenMarker.data.isPrefixOf (get_scaled_thinking frags finalText R).data = true
    rw [get_scaled_thinking, scaledBuffer, strData_append, strData_append, ht,
        List.append_assoc, List.append_assoc]
    exact isPrefixOf_append_self thinkOpenMarker.data _
  · show countOcc thinkClose.data (get_scaled_thinking frags finalText R).data = 1
    rw [get_scaled_thinking, scaledBuffer, strData_append, strData_append, closeL_eq]
    exact countOcc_sandwich (rstrip finalText).data
      (countOcc_rstrip_zero finalText hfin)
      (scaledRounds frags R).data
      (countOcc_scaledRounds frags R (fun i hi => hfr i hi))

/-- Claim C1 witness: the amended theorem applied at `R = 1`, fragment
`"A"`, final text `"Z"`. -/
theorem c1_round_counts_witness :
    (scaledCalls (fun _ => "A") 1).length = 1 + 1 ∧
    (∀ c, c ∈ (scaledCalls (fun _ => "A") 1).take 1 → c.stop = some thinkClose) ∧
    (scaledCalls (fun _ => "A") 1).drop 1 = [⟨none, scaledBuffer (fun _ => "A") 1⟩] ∧
    strStartsWith thinkOpenMarker (get_scaled_thinking (fun _ => "A") "Z" 1) = true ∧
    countOccStr thinkClose (get_scaled_thinking (fun _ => "A") "Z" 1) = 1 :=
  c1_round_counts (fun _ => "A") "Z" 1 (by decide)
    (fun i _ => show countOccStr thinkClose "A" = 0 by decide) (by decide)

/-- The stubbed fragments of the spec's `rounds = 3` scenario:
continuations "A", "B", "C". -/
def c2frags : Nat → String
  | 0 => "A"
  | 1 => "B"
  | _ => "C"

/-- Claim C2, counterexample to the claim as stated.  On the stubbed
provider (fragments "A","B","C", final "Z") the controller produces
`"<think>OkayA\nWaitB\nWaitC</think>Z"`: the continuation sentinel the code
prepends is `"\nWait"` with no trailing space, so the result differs from
the claimed literal `<open>A\nWait B\nWait C<close>Z` under either reading
of the open marker (`"<think>Okay"`, the seeded buffer, or `"<think>"`). -/
theorem c2_counterexample :
    get_scaled_thinking c2frags "Z" 3 = "<think>OkayA\nWaitB\nWaitC</think>Z" ∧
    ¬get_scaled_thinking c2frags "Z" 3 = "<think>OkayA\nWait B\nWait C</think>Z" ∧
    ¬get_scaled_thinking c2frags "Z" 3 = "<think>A\nWait B\nWait C</think>Z" := by
  refine ⟨by decide, by decide, by decide⟩

/-- Claim C2 (amended): with `rounds = 3`, fragments "A","B","C" and final
"Z", the returned string is exactly the seeded open marker, then "A", then
the sentinel `"\nWait"` (no trailing space) and "B", then `"\nWait"` and
"C", then the close marker, then "Z", in that order with nothing else
interleaved. -/
theorem c2_exact_concatenation :
    get_scaled_thinking c2frags "Z" 3 =
      thinkOpen ++ "A" ++ waitSentinel ++ "B" ++ waitSentinel ++ "C" ++ thinkClose ++ "Z" := by
  decide

/-- The loop of `get_scaled_thinking` with fallible provider calls: the
`i`-th continuation call either returns a fragment or raises
(`Except.error ()`); the first raise aborts the whole computation, exactly
as an exception propagates out of the `while` loop (main.py 220-244). -/
def scaledRoundsE (frags : Nat → Except Unit String) : Nat → Except Unit String
  | 0 => Except.ok thinkOpen
  | n + 1 =>
      match scaledRoundsE frags n, frags n with
      | Except.ok b, Except.ok f =>
          Except.ok ((if n = 0 then b else b ++ waitSentinel) ++ rstrip f)
      | Except.error e, _ => Except.error e
      | Except.ok _, Except.error e => Except.error e

/-- `get_scaled_thinking` with fallible provider calls: the whole body is
wrapped in try/except, and any raise from any call makes the function
return the fixed `scalingError` string (main.py 216, 268-270). -/
def get_scaled_thinkingE (frags : Nat → Except Unit String)
    (finalE : Except Unit String) (R : Nat) : String :=
  match scaledRoundsE frags R, finalE with
  | Except.ok b, Except.ok f => b ++ thinkClose ++ rstrip f
  | Except.error _, _ => scalingError
  | Except.ok _, Except.error _ => scalingError

theorem scaledRoundsE_error (frags : Nat → Except Unit String) :
    ∀ R, (∃ i, i < R ∧ frags i = Except.error ()) →
      scaledRoundsE frags R = Except.error () := by
  intro R
  induction R with
  | zero =>
    rintro ⟨i, hi, _⟩
    exact absurd hi (Nat.not_lt_zero i)
  | succ n ih =>
    rintro ⟨i, hi, herr⟩
    show (match scaledRoundsE frags n, frags n with
      | Except.ok b, Except.ok f =>
          Except.ok ((if n = 0 then b else b ++ waitSentinel) ++ rstrip f)
      | Except.error e, _ => Except.error e
      | Except.ok _, Except.error e => Except.error e) = Except.error ()
    rcases Nat.lt_or_ge i n with hin | hge
    · rw [ih ⟨i, hin, herr⟩]
    · have : i = n := Nat.le_antisymm (Nat.lt_succ_iff.mp hi) hge
      subst this
      rw [herr]
      cases scaledRoundsE frags i <;> rfl

/-- Claim C6: if any provider call of a `get_scaled_thinking` invocation
fails — any of the `R` continuation calls or the final call — the whole
sequence aborts and the invocation returns exactly the fixed reasoning-
pipeline error string; no partial reasoning buffer is returned (and hence
none can be persisted by the caller, which stores only the returned
string). -/
theorem c6_all_or_nothing (frags : Nat → Except Unit String)
    (finalE : Except Unit String) (R : Nat)
    (hfail : (∃ i, i < R ∧ frags i = Except.error ()) ∨ finalE = Except.error ()) :
    get_scaled_thinkingE frags finalE R = scalingError := by
  rcases hfail with hcont | hfin
  · unfold get_scaled_thinkingE
    rw [scaledRoundsE_error frags R hcont]
  · unfold get_scaled_thinkingE
    rw [hfin]
    cases scaledRoundsE frags R <;> rfl

/-- Claim C6 witness: a failing first continuation call at `R = 1`. -/
theorem c6_all_or_nothing_witness :
    get_scaled_thinkingE (fun _ => Except.error ()) (Except.ok "Z") 1 = scalingError :=
  c6_all_or_nothing (fun _ => Except.error ()) (Except.ok "Z") 1
    (Or.inl ⟨0, Nat.zero_lt_one, rfl⟩)

/-! ## Conversation storage (conversation_mem.py)

Message and attachment documents are modelled with their author fields
flattened; the base64 codec for attachment payloads is modelled as the
identity on the stored payload string (`store_attachment` encodes and
`get_attachment` decodes, a round trip).  A collection is a Lean list of
documents in insertion order; `datetime.utcnow()` timestamps increase
strictly with insertion, so sorting by timestamp descending is reversal. -/

/-- The source of an image content block: inline base64 data or an
attachment reference awaiting resolution (main.py 284-288). -/
inductive BlockSource where
  | base64 (media_type : String) (data : String)
  | attachment_ref (attachment_id : Nat)
deriving DecidableEq

/-- A content block of a stored or forwarded message (text or image). -/
inductive ContentBlock where
  | text (t : String)
  | image (source : BlockSource)
deriving DecidableEq

/-- One document of the `channel_messages` collection
(conversation_mem.py 80-90), author subdocument flattened. -/
structure StoredMsg where
  message_id : String
  channel_id : String
  user_id : String
  username : String
  is_bot : Bool
  content : List ContentBlock
deriving DecidableEq

/-- One document of the `attachments` collection
(conversation_mem.py 96-112), with `attachment_id` its Mongo `_id`. -/
structure Attachment where
  attachment_id : Nat
  user_id : String
  filename : String
  content : String
deriving DecidableEq

/-- `ConversationStorage.get_convo` (conversation_mem.py 64-75): find the
channel's messages, sort by timestamp descending (reverse of insertion
order), limit to 20, and return them reversed, i.e. in chronological
order. -/
def get_convo (msgs : List StoredMsg) (channel_id : String) : List StoredMsg :=
  (((msgs.filter (fun m => m.channel_id == channel_id)).reverse).take 20).reverse

/-- The spec's trim contract, stated from its words: a sequence at or under
`max_turns` is returned unchanged; a longer one is cut to the most recent
`N` turns where `N` is the largest even number at most `max_turns`. -/
def specTrim (max_turns : Nat) (turns : List StoredMsg) : List StoredMsg :=
  if turns.length ≤ max_turns then turns
  else turns.drop (turns.length - (max_turns - max_turns % 2))

theorem window_eq (l : List StoredMsg) :
    (l.reverse.take 20).reverse =
      if l.length ≤ 20 then l else l.drop (l.length - 20) := by
  have h : (l.reverse.take 20).reverse = l.drop (l.length - 20) := by
    rw [← List.rtake_eq_reverse_take_reverse]
    rfl
  rw [h]
  by_cases hle : l.length ≤ 20
  · rw [if_pos hle, Nat.sub_eq_zero_of_le hle, List.drop_zero]
  · rw [if_neg hle]

/-- Claim C3: loading a channel conversation for dispatch returns exactly
the spec's trim of the stored sequence with maximum 20 (the code's
hard-coded limit, equal to `MAX_MEMORY`): the identity at or under 20
turns, and the largest even-length suffix of at most 20 turns — that is,
the 20 most recent turns — above it.  In particular a 21-turn conversation
loads as its 20 most recent turns, the oldest dropped. -/
theorem c3_trim_refines :
    (∀ (msgs : List StoredMsg) (ch : String),
        get_convo msgs ch = specTrim 20 (msgs.filter (fun m => m.channel_id == ch))) ∧
    (∀ l : List StoredMsg, l.length = 21 → specTrim 20 l = l.drop 1) := by
  constructor
  · intro msgs ch
    rw [get_convo, specTrim, window_eq]
  · intro l hl
    rw [specTrim, hl]
    rfl

/-- A fixed message document used to instantiate scenario witnesses. -/
def sampleMsg : StoredMsg := ⟨"m0", "c0", "u0", "alice", false, [ContentBlock.text "hi"]⟩

/-- Claim C3 witness: the refinement applied to a concrete store, and the
21-turn scenario applied to a concrete 21-turn conversation. -/
theorem c3_trim_refines_witness :
    get_convo (List.replicate 21 sampleMsg) "c0" =
      specTrim 20 ((List.replicate 21 sampleMsg).filter (fun m => m.channel_id == "c0")) ∧
    specTrim 20 (List.replicate 21 sampleMsg) = (List.replicate 21 sampleMsg).drop 1 :=
  ⟨c3_trim_refines.1 (List.replicate 21 sampleMsg) "c0",
   c3_trim_refines.2 (List.replicate 21 sampleMsg) (by simp)⟩

/-- `ConversationStorage.get_attachment` (conversation_mem.py 114-124):
look the document up by id; `None` when absent. -/
def get_attachment (atts : List Attachment) (attachment_id : Nat) :
    Option (String × String) :=
  match atts.find? (fun a => a.attachment_id == attachment_id) with
  | some doc => some (doc.filename, doc.content)
  | none => none

/-- `ConversationStorage.delete_channel_convo` (conversation_mem.py
126-133): `delete_many` of the channel's messages. -/
def delete_channel_convo (msgs : List StoredMsg) (channel_id : String) : List StoredMsg :=
  msgs.filter (fun m => !(m.channel_id == channel_id))

/-- The message ids the user authored, collected before any deletion
(conversation_mem.py 139-145). -/
def user_message_ids (msgs : List StoredMsg) (user_id : String) : List String :=
  (msgs.filter (fun m => m.user_id == user_id)).map (fun m => m.message_id)

/-- `ConversationStorage.delete_user_convo` (conversation_mem.py 135-162):
collect the user's message ids, `delete_many` the user's messages, then
`delete_one` each bot reply `claude_<id>`, then `delete_many` the user's
attachments. -/
def delete_user_convo (msgs : List StoredMsg) (atts : List Attachment)
    (user_id : String) : List StoredMsg × List Attachment :=
  ((user_message_ids msgs user_id).foldl
      (fun acc mid => acc.eraseP (fun m => m.message_id == ("claude_" ++ mid)))
      (msgs.filter (fun m => !(m.user_id == user_id))),
   atts.filter (fun a => !(a.user_id == user_id)))

theorem foldl_eraseP_sublist (p : String → StoredMsg → Bool) :
    ∀ (ids : List String) (acc : List StoredMsg),
      List.Sublist (ids.foldl (fun a i => a.eraseP (p i)) acc) acc := by
  intro ids
  induction ids with
  | nil => intro acc; exact List.Sublist.refl acc
  | cons i ids ih =>
    intro acc
    rw [List.foldl_cons]
    exact (ih (acc.eraseP (p i))).trans (List.eraseP_sublist acc)

theorem eraseP_no_match (x : String) :
    ∀ l : List StoredMsg, (l.map (fun m => m.message_id)).Nodup →
      ∀ m ∈ l.eraseP (fun m => m.message_id == x), ¬m.message_id = x := by
  intro l
  induction l with
  | nil =>
    intro _ m hm
    simp [List.eraseP] at hm
  | cons a l ih =>
    intro hnod m hm
    rw [List.map_cons, List.nodup_cons] at hnod
    by_cases ha : a.message_id = x
    · rw [List.eraseP_cons_of_pos (by simpa using ha)] at hm
      intro hfm
      exact hnod.1 (ha ▸ hfm ▸ List.mem_map_of_mem (fun m => m.message_id) hm)
    · rw [List.eraseP_cons_of_neg (by simpa using ha)] at hm
      rcases List.mem_cons.mp hm with rfl | hm'
      · exact ha
      · exact ih hnod.2 m hm'

theorem fold_deletes_replies :
    ∀ (ids : List String) (acc : List StoredMsg),
      (acc.map (fun m => m.message_id)).Nodup →
      ∀ mid ∈ ids,
        ∀ m' ∈ ids.foldl
            (fun a i => a.eraseP (fun m => m.message_id == ("claude_" ++ i))) acc,
          ¬m'.message_id = "claude_" ++ mid := by
  intro ids
  induction ids with
  | nil =>
    intro acc _ mid hmid
    simp at hmid
  | cons i ids ih =>
    intro acc hnod mid hmid m' hm'
    rw [List.foldl_cons] at hm'
    have hsub := foldl_eraseP_sublist
      (fun i m => m.message_id == ("claude_" ++ i)) ids
      (acc.eraseP (fun m => m.message_id == ("claude_" ++ i)))
    have hnod' : ((acc.eraseP (fun m => m.message_id == ("claude_" ++ i))).map
        (fun m => m.message_id)).Nodup :=
      List.Nodup.sublist (List.Sublist.map _ (List.eraseP_sublist acc)) hnod
    rcases List.mem_cons.mp hmid with rfl | hmid'
    · exact eraseP_no_match ("claude_" ++ mid) acc hnod m' (hsub.subset hm')
    · exact ih (acc.eraseP (fun m => m.message_id == ("claude_" ++ i))) hnod' mid hmid' m' hm'

/-- Claim C7: after `delete_channel_convo`, loading that channel returns
the empty sequence; after `delete_user_convo`, no attachment owned by the
deleted user remains retrievable, no message the user authored remains,
and every bot reply `claude_<id>` to one of the user's deleted messages is
removed as well.  The Nodup hypotheses state the unique indexes that
`ConversationStorage.init` creates on `message_id` and `attachment_id`. -/
theorem c7_delete (msgs : List StoredMsg) (atts : List Attachment) (ch u : String)
    (hnodupM : (msgs.map (fun m => m.message_id)).Nodup)
    (hnodupA : (atts.map (fun a => a.attachment_id)).Nodup) :
    get_convo (delete_channel_convo msgs ch) ch = [] ∧
    (∀ a, a ∈ atts → a.user_id = u →
        get_attachment (delete_user_convo msgs atts u).2 a.attachment_id = none) ∧
    (∀ m', m' ∈ (delete_user_convo msgs atts u).1 → ¬m'.user_id = u) ∧
    (∀ m, m ∈ msgs → m.user_id = u →
        ∀ m', m' ∈ (delete_user_convo msgs atts u).1 →
          ¬m'.message_id = "claude_" ++ m.message_id) := by
  refine ⟨?_, ?_, ?_, ?_⟩
  · have h0 : (delete_channel_convo msgs ch).filter (fun m => m.channel_id == ch) = [] := by
      rw [List.filter_eq_nil_iff]
      intro m hm
      have hmem := List.of_mem_filter hm
      simp only [Bool.not_eq_true'] at hmem
      simp [hmem]
    rw [get_convo, h0]
    rfl
  · intro a ha hau
    show get_attachment (atts.filter (fun a => !(a.user_id == u))) a.attachment_id = none
    rw [get_attachment]
    have hfind : (atts.filter (fun a => !(a.user_id == u))).find?
        (fun x => x.attachment_id == a.attachment_id) = none := by
      rw [List.find?_eq_none]
      intro x hx
      rcases List.mem_filter.mp hx with ⟨hxa, hxu⟩
      intro hbeq
      have hxid : x.attachment_id = a.attachment_id := by simpa using hbeq
      have hxeqa : x = a := List.inj_on_of_nodup_map hnodupA hxa ha hxid
      rw [hxeqa, hau] at hxu
      simp at hxu
    rw [hfind]
  · intro m' hm'
    have hsub := foldl_eraseP_sublist
      (fun i m => m.message_id == ("claude_" ++ i)) (user_message_ids msgs u)
      (msgs.filter (fun m => !(m.user_id == u)))
    have hmem := hsub.subset hm'
    have hthis := List.of_mem_filter hmem
    simp only [Bool.not_eq_true'] at hthis
    intro heq
    rw [heq] at hthis
    simp at hthis
  · intro m hm hmu m' hm'
    have hmid : m.message_id ∈ user_message_ids msgs u := by
      rw [user_message_ids]
      refine List.mem_map_of_mem (fun m => m.message_id) (List.mem_filter.mpr ⟨hm, ?_⟩)
      rw [hmu]
      exact beq_self_eq_true u
    have hnodAfter : ((msgs.filter (fun m => !(m.user_id == u))).map
        (fun m => m.message_id)).Nodup :=
      List.Nodup.sublist (List.Sublist.map _ (List.filter_sublist msgs)) hnodupM
    exact fold_deletes_replies (user_message_ids msgs u)
      (msgs.filter (fun m => !(m.user_id == u))) hnodAfter m.message_id hmid m' hm'

/-- A user message and the bot's reply to it, for the deletion witness. -/
def wUserMsg : StoredMsg := ⟨"m1", "c1", "u1", "alice", false, [ContentBlock.text "hi"]⟩

/-- The bot reply document stored as `claude_` plus the triggering id. -/
def wBotMsg : StoredMsg := ⟨"claude_m1", "c1", "claude", "Claude", true, [ContentBlock.text "yo"]⟩

/-- An attachment owned by the user of the deletion witness. -/
def wAtt : Attachment := ⟨1, "u1", "f.png", "payload"⟩

/-- Claim C7 witness: the deletion theorem applied to a two-message store
with one attachment. -/
theorem c7_delete_witness :
    get_convo (delete_channel_convo [wUserMsg, wBotMsg] "c1") "c1" = [] ∧
    (∀ a, a ∈ [wAtt] → a.user_id = "u1" →
        get_attachment (delete_user_convo [wUserMsg, wBotMsg] [wAtt] "u1").2
          a.attachment_id = none) ∧
    (∀ m', m' ∈ (delete_user_convo [wUserMsg, wBotMsg] [wAtt] "u1").1 →
        ¬m'.user_id = "u1") ∧
    (∀ m, m ∈ [wUserMsg, wBotMsg] → m.user_id = "u1" →
        ∀ m', m' ∈ (delete_user_convo [wUserMsg, wBotMsg] [wAtt] "u1").1 →
          ¬m'.message_id = "claude_" ++ m.message_id) :=
  c7_delete [wUserMsg, wBotMsg] [wAtt] "c1" "u1" (by decide) (by decide)

/-! ## RAG fallback pipeline (rag.py)

paperqa is an oracle: an `aquery` call either raises (`Except.error ()`) or
returns an answer object carrying `answer` (matched against the sentinel)
and `formatted_answer` (the value returned to the caller).  Document
collections are lists of document names. -/

/-- The answer object returned by `Docs.aquery`. -/
structure PqAnswer where
  answer : String
  formatted_answer : String
deriving DecidableEq

/-- The insufficient-context sentinel of the qa prompt (rag.py 20-25). -/
def sentinel : String := "INSUFFICIENT_CONTEXT"

/-- The fixed no-information result of `process_query` (rag.py 224). -/
def noInfoMsg : String :=
  "Unable to find sufficient information to answer the query in available papers."

/-- `RagProcessor.local_rag` (rag.py 137-164): if no docs are loaded, fall
back to lazily loaded ones (`loaded` holds the papers-directory PDFs that
load without error); with a still-empty corpus return `None`; otherwise
query, returning `None` when the call raises or the stripped answer equals
the sentinel, and the formatted answer otherwise. -/
def local_rag (docs loaded : List String) (queryResult : Except Unit PqAnswer) :
    Option String :=
  if (if docs.isEmpty then loaded else docs).isEmpty then none
  else
    match queryResult with
    | Except.error _ => none
    | Except.ok ans =>
        if pyStrip ans.answer = sentinel then none else some ans.formatted_answer

/-- `RagProcessor.search_rag` (rag.py 166-205): search results populate a
transient index, which is queried regardless of how many documents were
found (the code never branches on the count, so `papers` does not affect
the outcome); `None` when the call raises or the stripped answer equals
the sentinel, and the formatted answer otherwise. -/
def search_rag (papers : List String) (queryResult : Except Unit PqAnswer) :
    Option String :=
  match queryResult with
  | Except.error _ => none
  | Except.ok ans =>
      if pyStrip ans.answer = sentinel then none else some ans.formatted_answer

/-- Python truthiness of an `Optional[str]`: `None` and the empty string
are falsy. -/
def pyTruthyStr : Option String → Bool
  | none => false
  | some s => !(s == "")

/-- `RagProcessor.process_query` (rag.py 207-224): use the local answer if
truthy, otherwise fall back to external search, and when that answer is
not truthy either, return the fixed no-information string.  The second
component records whether the external search step was invoked. -/
def process_query (localAnswer searchAnswer : Option String) : String × Bool :=
  if pyTruthyStr localAnswer then (localAnswer.getD "", false)
  else if pyTruthyStr searchAnswer then (searchAnswer.getD "", true)
  else (noInfoMsg, true)

theorem process_query_none (searchAnswer : Option String) :
    (process_query none searchAnswer).2 = true := by
  unfold process_query
  rw [if_neg (by decide : ¬pyTruthyStr (none : Option String) = true)]
  by_cases hs : pyTruthyStr searchAnswer = true
  · rw [if_pos hs]
  · rw [if_neg hs]

/-- Claim C4, counterexample to the claim as stated.  A local index holding
one paper whose query returns a real, non-sentinel answer whose formatted
text is the empty string: `local_rag` returns that answer (`Some ""`), yet
`if local_answer:` is falsy on the empty string, so `process_query`
invokes external search anyway. -/
theorem c4_counterexample :
    local_rag ["paper1.pdf"] [] (Except.ok ⟨"a real answer", ""⟩) = some "" ∧
    ¬pyStrip "a real answer" = sentinel ∧
    (process_query (local_rag ["paper1.pdf"] [] (Except.ok ⟨"a real answer", ""⟩))
        (search_rag ["ext.pdf"] (Except.ok ⟨"whatever", "external result"⟩))).2 = true := by
  refine ⟨by decide, by decide, by decide⟩

/-- Claim C4 (amended): external search is never invoked when the local
step returns a non-empty (hence truthy) answer, which every real
non-sentinel answer with non-empty formatted text is; and external search
is always invoked before returning whenever the local corpus is empty or
the local answer is the sentinel (both make `local_rag` return `None`).
The empty-string formatted answer is the one non-sentinel local answer
that still triggers external search. -/
theorem c4_local_before_external :
    (∀ (localAnswer searchAnswer : Option String) (s : String),
        localAnswer = some s → ¬s = "" →
        (process_query localAnswer searchAnswer).2 = false ∧
        (process_query localAnswer searchAnswer).1 = s) ∧
    (∀ (searchAnswer : Option String) (q : Except Unit PqAnswer),
        (process_query (local_rag [] [] q) searchAnswer).2 = true) ∧
    (∀ (searchAnswer : Option String) (docs loaded : List String) (ans : PqAnswer),
        pyStrip ans.answer = sentinel →
        (process_query (local_rag docs loaded (Except.ok ans)) searchAnswer).2 = true) := by
  refine ⟨?_, ?_, ?_⟩
  · intro localAnswer searchAnswer s hsome hne
    subst hsome
    have htruthy : pyTruthyStr (some s) = true := by
      simp [pyTruthyStr, hne]
    rw [process_query, htruthy]
    exact ⟨rfl, rfl⟩
  · intro searchAnswer q
    have hnone : local_rag [] [] q = none := rfl
    rw [hnone]
    exact process_query_none searchAnswer
  · intro searchAnswer docs loaded ans hsent
    have hnone : local_rag docs loaded (Except.ok ans) = none := by
      rw [local_rag]
      by_cases hemp : (if docs.isEmpty then loaded else docs).isEmpty = true
      · rw [if_pos hemp]
      · rw [if_neg hemp, if_pos hsent]
    rw [hnone]
    exact process_query_none searchAnswer

/-- Claim C4 witness: the amended theorem's parts applied concretely — a
truthy local answer suppresses search; an empty corpus and a sentinel
answer each force it. -/
theorem c4_local_before_external_witness :
    (process_query (some "found it") none).2 = false ∧
    (process_query (local_rag [] [] (Except.error ())) none).2 = true ∧
    (process_query (local_rag ["p.pdf"] [] (Except.ok ⟨sentinel, "x"⟩)) none).2 = true :=
  ⟨(c4_local_before_external.1 (some "found it") none "found it" rfl (by decide)).1,
   c4_local_before_external.2.1 none (Except.error ()),
   c4_local_before_external.2.2 none ["p.pdf"] [] ⟨sentinel, "x"⟩ (by decide)⟩

/-- Claim C5, counterexample to the claim as stated.  Local RAG returns the
sentinel and the external search finds zero documents, but the code never
branches on the document count: the transient index is queried anyway, and
if that answering call returns a non-sentinel answer — nothing in the code
prevents it, only the prompt's instruction to the model — `process_query`
returns that fabricated answer instead of the fixed no-information
string. -/
theorem c5_counterexample :
    (process_query (local_rag ["doc1.pdf"] [] (Except.ok ⟨sentinel, "ignored"⟩))
        (search_rag [] (Except.ok ⟨"Fabricated claim.", "Fabricated claim."⟩))).1 =
      "Fabricated claim." ∧
    ¬"Fabricated claim." = noInfoMsg := by
  refine ⟨by decide, by decide⟩

/-- Claim C5 (amended): whenever the local step answers with the sentinel
and the external search step's answering call either raises or also
yields the sentinel — which is what the qa prompt mandates when no
documents supply context, though only the prompt enforces it — the
pipeline returns exactly the fixed no-information string and invokes the
search step.  The zero-documents case yields the fixed string only through
this sentinel convention, not through a count check. -/
theorem c5_no_information (docs loaded papers : List String) (lans : PqAnswer)
    (sq : Except Unit PqAnswer)
    (hl : pyStrip lans.answer = sentinel)
    (hs : sq = Except.error () ∨ ∃ sans, sq = Except.ok sans ∧ pyStrip sans.answer = sentinel) :
    process_query (local_rag docs loaded (Except.ok lans)) (search_rag papers sq) =
      (noInfoMsg, true) := by
  have hlocal : local_rag docs loaded (Except.ok lans) = none := by
    rw [local_rag]
    by_cases hemp : (if docs.isEmpty then loaded else docs).isEmpty = true
    · rw [if_pos hemp]
    · rw [if_neg hemp, if_pos hl]
  have hsearch : search_rag papers sq = none := by
    rcases hs with rfl | ⟨sans, rfl, hsent⟩
    · rfl
    · rw [search_rag, if_pos hsent]
  rw [hlocal, hsearch]
  rfl

/-- Claim C5 witness: sentinel locally, raising search call. -/
theorem c5_no_information_witness :
    process_query (local_rag ["d.pdf"] [] (Except.ok ⟨sentinel, "x"⟩))
        (search_rag [] (Except.error ())) = (noInfoMsg, true) :=
  c5_no_information ["d.pdf"] [] [] ⟨sentinel, "x"⟩ (Except.error ())
    (by decide) (Or.inl rfl)

/-- One data row of the manifest CSV (header `file_location,doi,title`,
rag.py 63). -/
structure ManifestRow where
  file_location : String
  doi : String
  title : String
deriving DecidableEq

/-- The update loop of `update_manifest` (rag.py 74-79): walk the rows and
overwrite `doi` and `title` of the first row whose `file_location` matches,
then break. -/
def updateRows (loc doi title : String) : List ManifestRow → List ManifestRow
  | [] => []
  | r :: rs =>
      if r.file_location = loc then ⟨r.file_location, doi, title⟩ :: rs
      else r :: updateRows loc doi title rs

/-- Split a character list at `/` separators (the path-component parsing
pathlib performs on the POSIX relative paths this program builds: no
absolute paths, no `.` or `..` components, no duplicate separators). -/
def splitSlashAux : List Char → List Char → List (List Char)
  | [], acc => [acc.reverse]
  | c :: rest, acc =>
      if c = '/' then acc.reverse :: splitSlashAux rest []
      else splitSlashAux rest (c :: acc)

/-- The `/`-separated components of a path string's characters. -/
def splitSlash (l : List Char) : List (List Char) := splitSlashAux l []

/-- Rejoin path components with `/`. -/
def joinSlash : List (List Char) → List Char
  | [] => []
  | [p] => p
  | p :: ps => p ++ '/' :: joinSlash ps

/-- `str(Path(filename).relative_to(papers_dir))` (rag.py 72): when the
components of `papers_dir` are a prefix of those of `filename`, the
remaining components joined back (pathlib renders the empty remainder as
`"."`); otherwise `Path.relative_to` raises ValueError, modelled as
`none`. -/
def relative_to (filename papers_dir : String) : Option String :=
  if (splitSlash papers_dir.data).isPrefixOf (splitSlash filename.data) then
    match (splitSlash filename.data).drop (splitSlash papers_dir.data).length with
    | [] => some "."
    | rem => some ⟨joinSlash rem⟩
  else none

/-- `RagProcessor.update_manifest` (rag.py 56-95) on the manifest's data
rows: compute the key `str(Path(filename).relative_to(self.papers_dir))`
(rag.py 72); when that raises — which it does whenever `filename` does not
lie under `papers_dir` — the enclosing try/except (rag.py 94-95) swallows
the ValueError and the manifest's rows are left unchanged.  When the key
computation succeeds, update the row it keys in place when present,
otherwise append one new row; then write all rows back. -/
def update_manifest (papers_dir : String) (rows : List ManifestRow)
    (filename doi title : String) : List ManifestRow :=
  match relative_to filename papers_dir with
  | none => rows
  | some loc =>
      if rows.any (fun r => r.file_location == loc) then updateRows loc doi title rows
      else rows ++ [⟨loc, doi, title⟩]

theorem updateRows_length (loc doi title : String) :
    ∀ rows : List ManifestRow, (updateRows loc doi title rows).length = rows.length := by
  intro rows
  induction rows with
  | nil => rfl
  | cons r rs ih =>
    rw [updateRows]
    by_cases hr : r.file_location = loc
    · rw [if_pos hr]
      rfl
    · rw [if_neg hr, List.length_cons, List.length_cons, ih]

theorem updateRows_get?_of_ne (loc doi title : String) :
    ∀ (rows : List ManifestRow) (k : Nat) (r : ManifestRow),
      rows.get? k = some r → ¬r.file_location = loc →
      (updateRows loc doi title rows).get? k = some r := by
  intro rows
  induction rows with
  | nil =>
    intro k r hk
    simp at hk
  | cons a rs ih =>
    intro k r hk hr
    rw [updateRows]
    by_cases ha : a.file_location = loc
    · rw [if_pos ha]
      cases k with
      | zero =>
        rw [List.get?_cons_zero] at hk
        injection hk with hk
        rw [← hk] at hr
        exact absurd ha hr
      | succ k =>
        rw [List.get?_cons_succ] at hk ⊢
        exact hk
    · rw [if_neg ha]
      cases k with
      | zero =>
        rw [List.get?_cons_zero] at hk ⊢
        exact hk
      | succ k =>
        rw [List.get?_cons_succ] at hk ⊢
        exact ih k r hk hr

theorem updateRows_keys (loc doi title : String) :
    ∀ (rows : List ManifestRow) (k : Nat) (r : ManifestRow),
      rows.get? k = some r →
      ∃ r', (updateRows loc doi title rows).get? k = some r' ∧
        r'.file_location = r.file_location := by
  intro rows
  induction rows with
  | nil =>
    intro k r hk
    simp at hk
  | cons a rs ih =>
    intro k r hk
    rw [updateRows]
    by_cases ha : a.file_location = loc
    · rw [if_pos ha]
      cases k with
      | zero =>
        rw [List.get?_cons_zero] at hk ⊢
        injection hk with hk
        exact ⟨⟨a.file_location, doi, title⟩, rfl, by rw [← hk]⟩
      | succ k =>
        rw [List.get?_cons_succ] at hk ⊢
        exact ⟨r, hk, rfl⟩
    · rw [if_neg ha]
      cases k with
      | zero =>
        rw [List.get?_cons_zero] at hk ⊢
        exact ⟨a, rfl, by injection hk with hk; rw [hk]⟩
      | succ k =>
        rw [List.get?_cons_succ] at hk ⊢
        exact ih k r hk

/-- When the relative-path key computation succeeds, `update_manifest`
performs the upsert: with the key present the row count is unchanged,
every row keyed by a different location is unchanged at its position, and
every position keeps its file-location key; with the key absent exactly
one new row is appended. -/
theorem update_manifest_upsert_of_rel (papers_dir : String) (rows : List ManifestRow)
    (filename doi title loc : String)
    (hrel : relative_to filename papers_dir = some loc) :
    ((rows.any (fun r => r.file_location == loc)) = true →
        (update_manifest papers_dir rows filename doi title).length = rows.length ∧
        (∀ (k : Nat) (r : ManifestRow), rows.get? k = some r → ¬r.file_location = loc →
            (update_manifest papers_dir rows filename doi title).get? k = some r) ∧
        (∀ (k : Nat) (r : ManifestRow), rows.get? k = some r →
            ∃ r', (update_manifest papers_dir rows filename doi title).get? k = some r' ∧
              r'.file_location = r.file_location)) ∧
    ((rows.any (fun r => r.file_location == loc)) = false →
        update_manifest papers_dir rows filename doi title = rows ++ [⟨loc, doi, title⟩]) := by
  have hu : update_manifest papers_dir rows filename doi title =
      (if rows.any (fun r => r.file_location == loc) then updateRows loc doi title rows
       else rows ++ [⟨loc, doi, title⟩]) := by
    unfold update_manifest
    rw [hrel]
  constructor
  · intro hany
    rw [hu, if_pos hany]
    exact ⟨updateRows_length loc doi title rows,
      fun k r hk hr => updateRows_get?_of_ne loc doi title rows k r hk hr,
      fun k r hk => updateRows_keys loc doi title rows k r hk⟩
  · intro hany
    rw [hu, if_neg (by rw [hany]; exact Bool.false_ne_true)]

/-- Claim C8 (code bug): `add_paper` (rag.py 109-135) saves the uploaded
PDF at `papers_dir / filename` but passes the bare `filename` to
`update_manifest` (rag.py 127), and attachment filenames carry no
directory; `Path(filename).relative_to(self.papers_dir)` (rag.py 72)
therefore raises ValueError on every real ingest, the except at
rag.py 94-95 swallows it, and the manifest's rows are never touched: no
row is updated in place and no row is appended, contradicting the claim,
the spec's upsert contract, and the function's own docstring.  The
update-or-append loop itself behaves exactly as the claim states whenever
the key computation succeeds — i.e. for paths under the papers directory,
such as the `pdf_path` the surrounding code evidently meant to pass — so
the claim is the intent and the argument a slip. -/
theorem c8_manifest_noop :
    relative_to "foo.pdf" "papers" = none ∧
    (∀ (rows : List ManifestRow) (doi title : String),
        update_manifest "papers" rows "foo.pdf" doi title = rows) ∧
    relative_to "papers/foo.pdf" "papers" = some "foo.pdf" ∧
    update_manifest "papers" [] "papers/foo.pdf" "d1" "t1" =
      [⟨"foo.pdf", "d1", "t1"⟩] ∧
    update_manifest "papers" [⟨"foo.pdf", "d1", "t1"⟩, ⟨"other.pdf", "d2", "t2"⟩]
        "papers/foo.pdf" "d3" "t3" =
      [⟨"foo.pdf", "d3", "t3"⟩, ⟨"other.pdf", "d2", "t2"⟩] := by
  refine ⟨by decide, fun rows doi title => rfl, by decide, by decide, by decide⟩

/-! ## Dispatch: attachment resolution and provider formatting
(`get_claude_response`, main.py 272-333)

Before anything is sent, the handler resolves attachment-reference blocks
of the incoming content in place (main.py 283-288), formats the loaded
history into single-text-block provider messages (main.py 306-311), and
appends the new message the same way (main.py 313-317).  A failure at any
step raises out of the handler (main.py 350-352), so the provider is never
called; `Except.error ()` models the raised exception. -/

/-- Sequential effectful map: the Python `for` loop, aborting at the first
raise. -/
def exMap {α β : Type} (f : α → Except Unit β) : List α → Except Unit (List β)
  | [] => Except.ok []
  | a :: as => do
      let b ← f a
      let bs ← exMap f as
      pure (b :: bs)

/-- Resolution of one content block (main.py 284-288): an image block whose
source is an attachment reference is replaced by an inline base64 block
with media type `"image/png"`; a missing attachment makes
`storage.get_attachment` return `None`, and unpacking
`filename, content = None` raises.  Other blocks pass through. -/
def resolveBlock (atts : List Attachment) : ContentBlock → Except Unit ContentBlock
  | ContentBlock.image (BlockSource.attachment_ref id) =>
      match get_attachment atts id with
      | none => Except.error ()
      | some fc => Except.ok (ContentBlock.image (BlockSource.base64 "image/png" fc.2))
  | b => Except.ok b

/-- The resolution loop over the incoming content (main.py 283-288). -/
def resolveContent (atts : List Attachment) (content : List ContentBlock) :
    Except Unit (List ContentBlock) :=
  exMap (resolveBlock atts) content

/-- `msg['content'][0]['text']`: the text of the first content block; an
empty list raises IndexError and a non-text first block raises KeyError. -/
def firstText : List ContentBlock → Except Unit String
  | ContentBlock.text t :: _ => Except.ok t
  | _ => Except.error ()

/-- One message of the context forwarded to the completion provider. -/
structure ProviderMsg where
  role : String
  content : List ContentBlock
deriving DecidableEq

/-- Formatting of one loaded turn (main.py 307-311): role from the bot
flag, and a single text block `<username>: ` followed by the text of the
turn's first stored content block only. -/
def formatStoredMsg (m : StoredMsg) : Except Unit ProviderMsg := do
  let t ← firstText m.content
  pure ⟨if m.is_bot then "assistant" else "user",
        [ContentBlock.text ("<" ++ m.username ++ ">: " ++ t)]⟩

/-- The context assembly of `get_claude_response` (main.py 283-317):
resolve the incoming content's attachment references, format the loaded
history, and append the new message formatted from the author's name and
the first resolved block's text. -/
def buildContext (conversation : List StoredMsg) (author_name : String)
    (new_content : List ContentBlock) (atts : List Attachment) :
    Except Unit (List ProviderMsg) := do
  let resolved ← resolveContent atts new_content
  let history ← exMap formatStoredMsg conversation
  let t ← firstText resolved
  pure (history ++ [⟨"user", [ContentBlock.text ("<" ++ author_name ++ ">: " ++ t)]⟩])

theorem exMap_error_of_mem {α β : Type} (f : α → Except Unit β) :
    ∀ l : List α, (∃ a ∈ l, f a = Except.error ()) → exMap f l = Except.error () := by
  intro l
  induction l with
  | nil =>
    rintro ⟨a, ha, _⟩
    simp at ha
  | cons x xs ih =>
    rintro ⟨a, ha, herr⟩
    show (do
      let b ← f x
      let bs ← exMap f xs
      pure (b :: bs)) = Except.error ()
    rcases List.mem_cons.mp ha with rfl | ha'
    · rw [herr]
      rfl
    · cases hx : f x with
      | error e =>
        cases e
        rfl
      | ok b =>
        rw [ih ⟨a, ha', herr⟩]
        rfl

theorem exMap_ok_length {α β : Type} (f : α → Except Unit β) :
    ∀ (l : List α) (r : List β), exMap f l = Except.ok r → r.length = l.length := by
  intro l
  induction l with
  | nil =>
    intro r hr
    injection hr with hr
    rw [← hr]
    rfl
  | cons x xs ih =>
    intro r hr
    cases hx : f x with
    | error e =>
      rw [show exMap f (x :: xs) = Except.error e by rw [exMap, hx]; rfl] at hr
      injection hr
    | ok b =>
      cases hxs : exMap f xs with
      | error e =>
        rw [show exMap f (x :: xs) = Except.error e by rw [exMap, hx, hxs]; rfl] at hr
        injection hr
      | ok bs =>
        rw [show exMap f (x :: xs) = Except.ok (b :: bs) by rw [exMap, hx, hxs]; rfl] at hr
        injection hr with hr
        rw [← hr, List.length_cons, ih bs hxs]
        rfl

theorem exMap_ok_get? {α β : Type} (f : α → Except Unit β) :
    ∀ (l : List α) (r : List β), exMap f l = Except.ok r →
      ∀ (k : Nat) (a : α), l.get? k = some a →
        ∃ b, f a = Except.ok b ∧ r.get? k = some b := by
  intro l
  induction l with
  | nil =>
    intro r hr k a hk
    simp at hk
  | cons x xs ih =>
    intro r hr k a hk
    cases hx : f x with
    | error e =>
      rw [show exMap f (x :: xs) = Except.error e by rw [exMap, hx]; rfl] at hr
      injection hr
    | ok b =>
      cases hxs : exMap f xs with
      | error e =>
        rw [show exMap f (x :: xs) = Except.error e by rw [exMap, hx, hxs]; rfl] at hr
        injection hr
      | ok bs =>
        rw [show exMap f (x :: xs) = Except.ok (b :: bs) by rw [exMap, hx, hxs]; rfl] at hr
        injection hr with hr
        rw [← hr]
        cases k with
        | zero =>
          rw [List.get?_cons_zero] at hk
          injection hk with hk
          rw [← hk]
          exact ⟨b, hx, rfl⟩
        | succ k =>
          rw [List.get?_cons_succ] at hk
          rw [List.get?_cons_succ]
          exact ih bs hxs k a hk

theorem exMap_ok_mem {α β : Type} (f : α → Except Unit β) :
    ∀ (l : List α) (r : List β), exMap f l = Except.ok r →
      ∀ b ∈ r, ∃ a ∈ l, f a = Except.ok b := by
  intro l
  induction l with
  | nil =>
    intro r hr b hb
    injection hr with hr
    rw [← hr] at hb
    simp at hb
  | cons x xs ih =>
    intro r hr b hb
    cases hx : f x with
    | error e =>
      rw [show exMap f (x :: xs) = Except.error e by rw [exMap, hx]; rfl] at hr
      injection hr
    | ok b0 =>
      cases hxs : exMap f xs with
      | error e =>
        rw [show exMap f (x :: xs) = Except.error e by rw [exMap, hx, hxs]; rfl] at hr
        injection hr
      | ok bs =>
        rw [show exMap f (x :: xs) = Except.ok (b0 :: bs) by rw [exMap, hx, hxs]; rfl] at hr
        injection hr with hr
        rw [← hr] at hb
        rcases List.mem_cons.mp hb with rfl | hb'
        · exact ⟨x, List.mem_cons_self x xs, hx⟩
        · rcases ih bs hxs b hb' with ⟨a, ha, hfa⟩
          exact ⟨a, List.mem_cons_of_mem x ha, hfa⟩

theorem exBind_ok {α β : Type} (x : Except Unit α) (f : α → Except Unit β) (b : β)
    (h : (x >>= f) = Except.ok b) : ∃ a, x = Except.ok a ∧ f a = Except.ok b := by
  cases x with
  | error e =>
    exact absurd h (by simp [Bind.bind, Except.bind])
  | ok a =>
    refine ⟨a, rfl, ?_⟩
    simpa [Bind.bind, Except.bind] using h

theorem exPure_ok {α : Type} (a b : α) (h : (pure a : Except Unit α) = Except.ok b) :
    a = b := by
  simpa [Pure.pure, Except.pure] using h

theorem formatStoredMsg_ok (m : StoredMsg) (pm : ProviderMsg)
    (h : formatStoredMsg m = Except.ok pm) :
    ∃ t, firstText m.content = Except.ok t ∧
      pm = ⟨if m.is_bot then "assistant" else "user",
            [ContentBlock.text ("<" ++ m.username ++ ">: " ++ t)]⟩ := by
  unfold formatStoredMsg at h
  rcases exBind_ok _ _ _ h with ⟨t, ht, hp⟩
  exact ⟨t, ht, (exPure_ok _ _ hp).symm⟩

/-- Claim C9: an incoming request holding an image block whose attachment
reference targets an attachment absent from the store fails as a whole —
the resolution loop raises on the missing resource (unpacking the `None`
from `get_attachment`), so no context is assembled and nothing is sent to
the completion provider; the block is never silently dropped. -/
theorem c9_missing_attachment (conversation : List StoredMsg) (author_name : String)
    (new_content : List ContentBlock) (atts : List Attachment) (id : Nat)
    (hmem : ContentBlock.image (BlockSource.attachment_ref id) ∈ new_content)
    (hmissing : get_attachment atts id = none) :
    resolveContent atts new_content = Except.error () ∧
    buildContext conversation author_name new_content atts = Except.error () := by
  have hres : resolveContent atts new_content = Except.error () := by
    refine exMap_error_of_mem (resolveBlock atts) new_content
      ⟨ContentBlock.image (BlockSource.attachment_ref id), hmem, ?_⟩
    simp [resolveBlock, hmissing]
  refine ⟨hres, ?_⟩
  unfold buildContext resolveContent at hres ⊢
  rw [hres]
  rfl

/-- Claim C9 witness: a single-block request referencing attachment 5
against an empty attachment store. -/
theorem c9_missing_attachment_witness :
    resolveContent [] [ContentBlock.image (BlockSource.attachment_ref 5)] =
      Except.error () ∧
    buildContext [] "bob" [ContentBlock.image (BlockSource.attachment_ref 5)] [] =
      Except.error () :=
  c9_missing_attachment [] "bob" [ContentBlock.image (BlockSource.attachment_ref 5)] [] 5
    (List.mem_singleton.mpr rfl) rfl

/-- Claim C10: whenever `get_claude_response` assembles a context, every
forwarded turn — each loaded turn and the newly arrived one — consists of
exactly one text block, namely the author's username in angle brackets,
a colon and space, and the text of the turn's first stored (for the new
turn: first resolved) content block only; every block after the first,
image blocks included, is omitted from what the provider receives. -/
theorem c10_forwarded_content (conversation : List StoredMsg) (author_name : String)
    (new_content : List ContentBlock) (atts : List Attachment) (ctx : List ProviderMsg)
    (h : buildContext conversation author_name new_content atts = Except.ok ctx) :
    ctx.length = conversation.length + 1 ∧
    (∀ (k : Nat) (m : StoredMsg), conversation.get? k = some m →
        ∃ t, firstText m.content = Except.ok t ∧
          ctx.get? k = some ⟨if m.is_bot then "assistant" else "user",
            [ContentBlock.text ("<" ++ m.username ++ ">: " ++ t)]⟩) ∧
    (∃ resolved t, resolveContent atts new_content = Except.ok resolved ∧
        firstText resolved = Except.ok t ∧
        ctx.get? conversation.length =
          some ⟨"user", [ContentBlock.text ("<" ++ author_name ++ ">: " ++ t)]⟩) ∧
    (∀ pm ∈ ctx, ∃ t, pm.content = [ContentBlock.text t]) := by
  unfold buildContext at h
  rcases exBind_ok _ _ _ h with ⟨resolved, hres, h⟩
  rcases exBind_ok _ _ _ h with ⟨history, hhist, h⟩
  rcases exBind_ok _ _ _ h with ⟨t, ht, h⟩
  have hctx : history ++
      [⟨"user", [ContentBlock.text ("<" ++ author_name ++ ">: " ++ t)]⟩] = ctx :=
    exPure_ok _ _ h
  have hlen : history.length = conversation.length :=
    exMap_ok_length formatStoredMsg conversation history hhist
  refine ⟨?_, ?_, ?_, ?_⟩
  · rw [← hctx, List.length_append, hlen]
    rfl
  · intro k m hk
    rcases exMap_ok_get? formatStoredMsg conversation history hhist k m hk with ⟨pm, hfmt, hr⟩
    rcases formatStoredMsg_ok m pm hfmt with ⟨tm, htm, hpm⟩
    refine ⟨tm, htm, ?_⟩
    have hklt : k < history.length := by
      rcases List.get?_eq_some.mp hk with ⟨hlt, _⟩
      rw [hlen]
      exact hlt
    rw [← hctx, List.get?_append hklt, hr, hpm]
  · refine ⟨resolved, t, hres, ht, ?_⟩
    rw [← hctx, ← hlen, List.get?_append_right (Nat.le_refl history.length),
        Nat.sub_self]
    rfl
  · intro pm hpm
    rw [← hctx] at hpm
    rcases List.mem_append.mp hpm with hin | hnew
    · rcases exMap_ok_mem formatStoredMsg conversation history hhist pm hin with ⟨m, _, hfmt⟩
      rcases formatStoredMsg_ok m pm hfmt with ⟨tm, _, hpm'⟩
      exact ⟨"<" ++ m.username ++ ">: " ++ tm, by rw [hpm']⟩
    · rcases List.mem_singleton.mp hnew with rfl
      exact ⟨"<" ++ author_name ++ ">: " ++ t, rfl⟩

/-- Claim C10 witness: the forwarding theorem applied to a one-turn history
whose stored turn carries a text block and an image block, and a new
message with a text block and an image block; both forward as single text
blocks. -/
theorem c10_forwarded_content_witness :
    (([⟨"user", [ContentBlock.text "<alice>: hi"]⟩,
       ⟨"user", [ContentBlock.text "<bob>: ping"]⟩] : List ProviderMsg).length =
        ([wUserMsg] : List StoredMsg).length + 1) ∧
    (∀ (k : Nat) (m : StoredMsg), ([wUserMsg] : List StoredMsg).get? k = some m →
        ∃ t, firstText m.content = Except.ok t ∧
          ([⟨"user", [ContentBlock.text "<alice>: hi"]⟩,
            ⟨"user", [ContentBlock.text "<bob>: ping"]⟩] : List ProviderMsg).get? k =
            some ⟨if m.is_bot then "assistant" else "user",
              [ContentBlock.text ("<" ++ m.username ++ ">: " ++ t)]⟩) ∧
    (∃ resolved t,
        resolveContent []
          [ContentBlock.text "ping", ContentBlock.image (BlockSource.base64 "image/png" "img")] =
          Except.ok resolved ∧
        firstText resolved = Except.ok t ∧
        ([⟨"user", [ContentBlock.text "<alice>: hi"]⟩,
          ⟨"user", [ContentBlock.text "<bob>: ping"]⟩] : List ProviderMsg).get?
            ([wUserMsg] : List StoredMsg).length =
          some ⟨"user", [ContentBlock.text ("<" ++ "bob" ++ ">: " ++ t)]⟩) ∧
    (∀ pm ∈ ([⟨"user", [ContentBlock.text "<alice>: hi"]⟩,
        ⟨"user", [ContentBlock.text "<bob>: ping"]⟩] : List ProviderMsg),
        ∃ t, pm.content = [ContentBlock.text t]) :=
  c10_forwarded_content [wUserMsg] "bob"
    [ContentBlock.text "ping", ContentBlock.image (BlockSource.base64 "image/png" "img")]
    [] _ rfl
